import Mathlib

/-!
Verification of the `poof` Groth16 artifact pipeline (Rust workspace:
`prover`, `zk-cli`, `verifier-contract`, `zk-seance-hash`).

Bytes are modelled as natural numbers (each byte value `< 256`) and byte
buffers as `List Nat`.  Field elements of the BN254 base field `Fq` and
scalar field `Fr` are modelled as their canonical natural-number values.
External collaborators (the `sha3` Keccak implementation, the arkworks
Groth16 prover/verifier and its canonical curve-point codecs) are taken as
abstract parameters, or, where a claim needs their concrete byte-level
behaviour, modelled from the specification and marked as such.
-/

namespace Poof

/-- Big-endian byte rendering of a natural number into exactly `w` bytes
(the value is truncated to its low `8*w` bits, matching a fixed-width
big-endian integer dump such as arkworks `BigInteger::to_bytes_be`). -/
def toBytesBE : Nat → Nat → List Nat
  | 0, _ => []
  | w + 1, n => toBytesBE w (n / 256) ++ [n % 256]

/-- Big-endian interpretation of a byte list as a natural number. -/
def fromBytesBE (bs : List Nat) : Nat :=
  bs.foldl (fun acc b => acc * 256 + b) 0

theorem toBytesBE_length (w n : Nat) : (toBytesBE w n).length = w := by
  induction w generalizing n with
  | zero => rfl
  | succ w ih => simp [toBytesBE, ih]

theorem fromBytesBE_append_single (bs : List Nat) (b : Nat) :
    fromBytesBE (bs ++ [b]) = fromBytesBE bs * 256 + b := by
  simp [fromBytesBE, List.foldl_append]

theorem fromBytesBE_toBytesBE (w n : Nat) :
    fromBytesBE (toBytesBE w n) = n % 2 ^ (8 * w) := by
  induction w generalizing n with
  | zero => simp [toBytesBE, fromBytesBE, Nat.mod_one]
  | succ w ih =>
    rw [toBytesBE, fromBytesBE_append_single, ih]
    have h : n % (256 * 2 ^ (8 * w)) = n % 256 + 256 * (n / 256 % 2 ^ (8 * w)) :=
      Nat.mod_mul
    have h256 : (2 : Nat) ^ (8 * (w + 1)) = 256 * 2 ^ (8 * w) := by
      rw [Nat.mul_succ, pow_add]; ring
    rw [h256]
    omega

/-- Function `pad_to_32_bytes` from `prover/src/utils.rs`: keep the last 32 bytes if
the input is at least 32 bytes long, otherwise left-pad with zero bytes. -/
def pad_to_32_bytes (bytes : List Nat) : List Nat :=
  if bytes.length ≥ 32 then bytes.drop (bytes.length - 32)
  else List.replicate (32 - bytes.length) 0 ++ bytes

/-- Function `field_element_to_32_bytes` from `prover/src/utils.rs`: fixed-width
big-endian dump of the field element value, padded to 32 bytes. -/
def field_element_to_32_bytes (field : Nat) : List Nat :=
  pad_to_32_bytes (toBytesBE 32 field)

/-- Function `u256_to_bytes` from `prover/src/utils.rs`: a `u64` value placed
big-endian in the last 8 bytes of a zeroed 32-byte word. -/
def u256_to_bytes (val : Nat) : List Nat :=
  List.replicate 24 0 ++ toBytesBE 8 (val % 2 ^ 64)

/-- An element of the quadratic extension field `Fq2`, as stored by
arkworks: real part `c0`, imaginary part `c1`. -/
structure Fq2 where
  c0 : Nat
  c1 : Nat
deriving DecidableEq

/-- An affine G1 point (BN254 base curve): coordinates `x`, `y` in `Fq`. -/
structure G1Affine where
  x : Nat
  y : Nat
deriving DecidableEq

/-- An affine G2 point (quadratic-twist curve): coordinates `x`, `y` in `Fq2`. -/
structure G2Affine where
  x : Fq2
  y : Fq2
deriving DecidableEq

/-- A Groth16 proof `(a : G1, b : G2, c : G1)` (arkworks `Proof<Bn254>`). -/
structure Proof where
  a : G1Affine
  b : G2Affine
  c : G1Affine
deriving DecidableEq

/-- A Groth16 verifying key (arkworks `VerifyingKey<Bn254>`). -/
structure VerifyingKey where
  alpha_g1 : G1Affine
  beta_g2 : G2Affine
  gamma_g2 : G2Affine
  delta_g2 : G2Affine
  gamma_abc_g1 : List G1Affine
deriving DecidableEq

/-- UTF-8 bytes of the function signature string used in `save_calldata`
(`prover/src/utils.rs` line 182): `"verifyProofFromCalldata(bytes)"`. -/
def function_sig_bytes : List Nat :=
  "verifyProofFromCalldata(bytes)".toList.map Char.toNat

/-- The `inner_data` buffer assembled by `save_calldata`
(`prover/src/utils.rs` lines 191–213): A, then B with its G2
sub-coordinates emitted imaginary-first, then C, then the public input. -/
def inner_data (proof : Proof) (public_input : Nat) : List Nat :=
  field_element_to_32_bytes proof.a.x ++
  field_element_to_32_bytes proof.a.y ++
  field_element_to_32_bytes proof.b.x.c1 ++
  field_element_to_32_bytes proof.b.x.c0 ++
  field_element_to_32_bytes proof.b.y.c1 ++
  field_element_to_32_bytes proof.b.y.c0 ++
  field_element_to_32_bytes proof.c.x ++
  field_element_to_32_bytes proof.c.y ++
  pad_to_32_bytes (toBytesBE 32 public_input)

/-- The calldata-assembly stage of `save_calldata`
(`prover/src/utils.rs` lines 215–248), for an arbitrary already-built
`inner_data` buffer.  Returns the assembled calldata together with the
flag recording whether the length-mismatch warning branch was taken
(the source prints a warning there and continues; there is no abort and
the calldata is assembled and written regardless). -/
def assemble_calldata (function_selector : List Nat) (inner : List Nat) :
    List Nat × Bool :=
  let warned := inner.length ≠ 288
  let calldata :=
    function_selector ++
    u256_to_bytes 0x20 ++
    u256_to_bytes inner.length ++
    inner ++
    List.replicate ((32 - inner.length % 32) % 32) 0
  (calldata, decide warned)

/-- Function `save_calldata` from `prover/src/utils.rs` (lines 176–268), modelled as
the byte buffer written to the output file.  The 256-bit hash used for the
function selector comes from the external `sha3` crate and is taken as an
abstract parameter `hash`. -/
def save_calldata (hash : List Nat → List Nat) (proof : Proof)
    (public_input : Nat) : List Nat :=
  let function_selector := (hash function_sig_bytes).take 4
  (assemble_calldata function_selector (inner_data proof public_input)).1

/-- Function `field_to_uint_string` from `prover/src/utils.rs`: decimal rendering of
the field element value for embedding in the generated contract. -/
def field_to_uint_string (field : Nat) : String :=
  toString field

/-- The ordered list of the eighteen constants substituted into the
Solidity contract template by `generate_complete_verifier_contract`
(`prover/src/utils.rs` lines 571–598): alpha (G1, untransformed), then
beta, gamma, delta (G2, each sub-coordinate pair emitted imaginary part
first), then the two `gamma_abc` G1 points (untransformed).  The
surrounding fixed template text carries no key material and is elided;
out-of-range `gamma_abc` indexing (the source indexes `[0]` and `[1]` and
panics below length 2) is modelled with a zero default. -/
def verifier_contract_constants (vk : VerifyingKey) : List String :=
  [field_to_uint_string vk.alpha_g1.x,
   field_to_uint_string vk.alpha_g1.y,
   field_to_uint_string vk.beta_g2.x.c1,
   field_to_uint_string vk.beta_g2.x.c0,
   field_to_uint_string vk.beta_g2.y.c1,
   field_to_uint_string vk.beta_g2.y.c0,
   field_to_uint_string vk.gamma_g2.x.c1,
   field_to_uint_string vk.gamma_g2.x.c0,
   field_to_uint_string vk.gamma_g2.y.c1,
   field_to_uint_string vk.gamma_g2.y.c0,
   field_to_uint_string vk.delta_g2.x.c1,
   field_to_uint_string vk.delta_g2.x.c0,
   field_to_uint_string vk.delta_g2.y.c1,
   field_to_uint_string vk.delta_g2.y.c0,
   field_to_uint_string (vk.gamma_abc_g1.getD 0 ⟨0, 0⟩).x,
   field_to_uint_string (vk.gamma_abc_g1.getD 0 ⟨0, 0⟩).y,
   field_to_uint_string (vk.gamma_abc_g1.getD 1 ⟨0, 0⟩).x,
   field_to_uint_string (vk.gamma_abc_g1.getD 1 ⟨0, 0⟩).y]

/-- The chain-facing rendering of a G2 point: for each of the two
coordinates the sub-coordinate pair is reordered imaginary component
first (`[c1, c0]` for x, then `[c1, c0]` for y).  This is the single
coordinate-order transform of spec §4.2, shared by the calldata builder
and the verifier-program generator. -/
def g2_eth_order (p : G2Affine) : List Nat :=
  [p.x.c1, p.x.c0, p.y.c1, p.y.c0]

/-- The nine 32-byte words of the calldata body, in the serialization
order fixed by `save_calldata`. -/
def calldata_body_words (proof : Proof) (public_input : Nat) : List Nat :=
  [proof.a.x, proof.a.y,
   proof.b.x.c1, proof.b.x.c0, proof.b.y.c1, proof.b.y.c0,
   proof.c.x, proof.c.y,
   public_input]

theorem pad_to_32_bytes_of_length_32 (bs : List Nat) (h : bs.length = 32) :
    pad_to_32_bytes bs = bs := by
  simp [pad_to_32_bytes, h]

theorem field_element_to_32_bytes_eq (n : Nat) :
    field_element_to_32_bytes n = toBytesBE 32 n := by
  rw [field_element_to_32_bytes, pad_to_32_bytes_of_length_32 _ (toBytesBE_length 32 n)]

theorem toBytesBE_split (w1 w2 n : Nat) :
    toBytesBE (w1 + w2) n = toBytesBE w1 (n / 256 ^ w2) ++ toBytesBE w2 n := by
  induction w2 generalizing n with
  | zero => simp [toBytesBE]
  | succ w2 ih =>
    have : w1 + (w2 + 1) = (w1 + w2) + 1 := by omega
    rw [this, toBytesBE, ih, toBytesBE, List.append_assoc,
      Nat.div_div_eq_div_mul, pow_succ]
    ring_nf

theorem toBytesBE_zero (w : Nat) : toBytesBE w 0 = List.replicate w 0 := by
  induction w with
  | zero => rfl
  | succ w ih => rw [toBytesBE, Nat.zero_div, Nat.zero_mod, ih, List.replicate_succ']

theorem u256_to_bytes_eq (v : Nat) (h : v < 2 ^ 64) :
    u256_to_bytes v = toBytesBE 32 v := by
  have h8 : (256 : Nat) ^ 8 = 2 ^ 64 := by norm_num
  have hsplit := toBytesBE_split 24 8 v
  have hdiv : v / 256 ^ 8 = 0 := Nat.div_eq_of_lt (h8 ▸ h)
  rw [show (32 : Nat) = 24 + 8 from rfl, hsplit, hdiv, toBytesBE_zero,
    u256_to_bytes, Nat.mod_eq_of_lt h]

theorem fromBytesBE_replicate_zero_append (k : Nat) (bs : List Nat) :
    fromBytesBE (List.replicate k 0 ++ bs) = fromBytesBE bs := by
  induction k with
  | zero => rfl
  | succ k ih => simpa [fromBytesBE, List.replicate_succ] using ih

theorem fromBytesBE_u256_to_bytes (v : Nat) :
    fromBytesBE (u256_to_bytes v) = v % 2 ^ 64 := by
  rw [u256_to_bytes, fromBytesBE_replicate_zero_append, fromBytesBE_toBytesBE]
  have : v % 2 ^ 64 % 2 ^ (8 * 8) = v % 2 ^ 64 := by norm_num
  exact this

theorem inner_data_eq_words (proof : Proof) (public_input : Nat) :
    inner_data proof public_input =
      (calldata_body_words proof public_input).flatMap (toBytesBE 32) := by
  simp [inner_data, calldata_body_words, field_element_to_32_bytes_eq,
    pad_to_32_bytes_of_length_32 _ (toBytesBE_length 32 public_input)]

theorem inner_data_length (proof : Proof) (public_input : Nat) :
    (inner_data proof public_input).length = 288 := by
  simp [inner_data_eq_words, calldata_body_words, toBytesBE_length]

/-- C1.  The calldata builder and the verifier-program generator apply the
identical G2 coordinate-order transform `g2_eth_order` (each sub-coordinate
pair emitted imaginary component first, `[c1, c0]` for both x and y): the
body serialized by `save_calldata` renders the proof's G2 point B through
that transform, the contract constants embed beta, gamma and delta through
that same transform, and every G1 coordinate (A, C, alpha, gamma_abc) is
emitted untransformed on both sides. -/
theorem c1_builder_and_generator_share_g2_transform
    (proof : Proof) (public_input : Nat) (vk : VerifyingKey) :
    inner_data proof public_input =
      ([proof.a.x, proof.a.y] ++ g2_eth_order proof.b ++
        [proof.c.x, proof.c.y, public_input]).flatMap (toBytesBE 32) ∧
    verifier_contract_constants vk =
      ([vk.alpha_g1.x, vk.alpha_g1.y] ++
        g2_eth_order vk.beta_g2 ++ g2_eth_order vk.gamma_g2 ++
        g2_eth_order vk.delta_g2 ++
        [(vk.gamma_abc_g1.getD 0 ⟨0, 0⟩).x, (vk.gamma_abc_g1.getD 0 ⟨0, 0⟩).y,
         (vk.gamma_abc_g1.getD 1 ⟨0, 0⟩).x, (vk.gamma_abc_g1.getD 1 ⟨0, 0⟩).y]
        ).map field_to_uint_string := by
  constructor
  · rw [inner_data_eq_words]
    simp [calldata_body_words, g2_eth_order]
  · simp [verifier_contract_constants, g2_eth_order]

/-- C2.  The calldata body is the concatenation, in this fixed order, of
A.x, A.y, B.x.c1, B.x.c0, B.y.c1, B.y.c0, C.x, C.y, then the public-input
scalar, each rendered as a 32-byte big-endian word (decoding a word
recovers the value modulo 2^256), for a 288-byte body. -/
theorem c2_calldata_body_layout (proof : Proof) (public_input : Nat) :
    inner_data proof public_input =
      toBytesBE 32 proof.a.x ++ toBytesBE 32 proof.a.y ++
      toBytesBE 32 proof.b.x.c1 ++ toBytesBE 32 proof.b.x.c0 ++
      toBytesBE 32 proof.b.y.c1 ++ toBytesBE 32 proof.b.y.c0 ++
      toBytesBE 32 proof.c.x ++ toBytesBE 32 proof.c.y ++
      toBytesBE 32 public_input ∧
    (∀ w : Nat, (toBytesBE 32 w).length = 32 ∧
      fromBytesBE (toBytesBE 32 w) = w % 2 ^ 256) ∧
    (inner_data proof public_input).length = 288 := by
  refine ⟨?_, fun w => ⟨toBytesBE_length 32 w, ?_⟩, inner_data_length _ _⟩
  · rw [inner_data_eq_words]; simp [calldata_body_words]
  · rw [fromBytesBE_toBytesBE]

theorem u256_to_bytes_length (v : Nat) : (u256_to_bytes v).length = 32 := by
  simp [u256_to_bytes, toBytesBE_length]

/-- C3.  The calldata buffer is selector, then the 32-byte big-endian
offset word with value 32, then the 32-byte big-endian length word holding
the actual body length, then the body, with no residual padding needed for
the 288-byte body: the total length is 4 + 32 + 32 + 288 = 356 bytes and
the region after the 4-byte selector is 32-byte aligned.  The selector is
the first 4 bytes of the 256-bit hash of the UTF-8 signature string (the
Keccak-256 implementation lives in the external `sha3` crate and enters as
the abstract 32-byte-output function `hash`). -/
theorem c3_calldata_framing (hash : List Nat → List Nat)
    (hhash : (hash function_sig_bytes).length = 32)
    (proof : Proof) (public_input : Nat) :
    save_calldata hash proof public_input =
      (hash function_sig_bytes).take 4 ++ u256_to_bytes 0x20 ++
      u256_to_bytes (inner_data proof public_input).length ++
      inner_data proof public_input ∧
    ((hash function_sig_bytes).take 4).length = 4 ∧
    u256_to_bytes 0x20 = toBytesBE 32 32 ∧
    fromBytesBE (u256_to_bytes (inner_data proof public_input).length) =
      (inner_data proof public_input).length ∧
    (save_calldata hash proof public_input).length = 356 ∧
    ((save_calldata hash proof public_input).length - 4) % 32 = 0 := by
  have hlen := inner_data_length proof public_input
  have hbody : save_calldata hash proof public_input =
      (hash function_sig_bytes).take 4 ++ u256_to_bytes 0x20 ++
      u256_to_bytes (inner_data proof public_input).length ++
      inner_data proof public_input := by
    simp [save_calldata, assemble_calldata, hlen]
  refine ⟨hbody, ?_, ?_, ?_, ?_, ?_⟩
  · simp [hhash]
  · rw [u256_to_bytes_eq 0x20 (by norm_num)]
  · rw [hlen, fromBytesBE_u256_to_bytes]; norm_num
  · simp [hbody, hhash, u256_to_bytes_length, hlen]
  · simp [hbody, hhash, u256_to_bytes_length, hlen]

/-- Closed instance for `c3_calldata_framing`, at an all-zero hash
function, zero proof and zero public input. -/
theorem c3_calldata_framing_witness :
    ((fun _ : List Nat => List.replicate 32 (0 : Nat)) function_sig_bytes).length
      = 32 ∧
    (save_calldata (fun _ => List.replicate 32 0)
      ⟨⟨0, 0⟩, ⟨⟨0, 0⟩, ⟨0, 0⟩⟩, ⟨0, 0⟩⟩ 0).length = 356 :=
  ⟨by simp,
   (c3_calldata_framing (fun _ => List.replicate 32 0) (by simp)
      ⟨⟨0, 0⟩, ⟨⟨0, 0⟩, ⟨0, 0⟩⟩, ⟨0, 0⟩⟩ 0).2.2.2.2.1⟩

/-- C4, counterexample.  A body whose length differs from 288 (here the
empty body) does not make the builder abort without output: the assembly
stage still produces a complete, non-empty calldata buffer (selector,
offset word, length word — 68 bytes here) and merely records the warning
branch having been taken. -/
theorem c4_counterexample_mismatch_still_emits :
    ([] : List Nat).length ≠ 288 ∧
    (assemble_calldata [0, 0, 0, 0] []).2 = true ∧
    (assemble_calldata [0, 0, 0, 0] []).1 ≠ [] ∧
    (assemble_calldata [0, 0, 0, 0] []).1.length = 68 := by
  refine ⟨by simp, by simp [assemble_calldata], ?_, ?_⟩
  · simp [assemble_calldata]
  · simp [assemble_calldata, u256_to_bytes_length]

/-- C4, amended.  A body length differing from 288 is treated as a
warning, not a fatal failure: the warning flag is taken exactly when the
length differs from 288, and the builder continues regardless, emitting
the complete calldata (selector, offset word, length word, body, zero
padding), whose region after the selector is always 32-byte aligned. -/
theorem c4_amended_warn_and_continue (sel inner : List Nat) :
    ((assemble_calldata sel inner).2 = true ↔ inner.length ≠ 288) ∧
    (assemble_calldata sel inner).1 =
      sel ++ u256_to_bytes 0x20 ++ u256_to_bytes inner.length ++ inner ++
      List.replicate ((32 - inner.length % 32) % 32) 0 ∧
    (assemble_calldata sel inner).1.length =
      sel.length + 64 + inner.length + (32 - inner.length % 32) % 32 ∧
    ((assemble_calldata sel inner).1.length - sel.length) % 32 = 0 := by
  refine ⟨by simp [assemble_calldata], rfl, ?_, ?_⟩
  · simp [assemble_calldata, u256_to_bytes_length]
    omega
  · simp [assemble_calldata, u256_to_bytes_length]
    omega

/-- The two canonical arkworks serialization modes an artifact reader or
writer can select. -/
inductive SerializationMode where
  | compressed
  | uncompressed
deriving DecidableEq

/-- The mode `save_proof` (`prover/src/utils.rs` line 101) uses to write
`../proofs/proof.bin`: `serialize_compressed`. -/
def save_proof_mode : SerializationMode := .compressed

/-- The mode `verify_proof_from_files` (`prover/src/verify.rs` line 16)
uses to read the proof from `../proofs/proof.bin`:
`deserialize_uncompressed`. -/
def verify_from_files_proof_mode : SerializationMode := .uncompressed

/-- The mode the zk-cli `Verify` command (`zk-cli/src/main.rs` line 118)
uses to read the proof file: `deserialize_compressed`. -/
def zk_cli_verify_proof_mode : SerializationMode := .compressed

/-- C5 (refuting evaluation).  The proof file is written in compressed
mode and the zk-cli `Verify` reader agrees, but the `verify_proof_from_files`
reader in `prover/src/verify.rs` deserializes the same file in uncompressed
mode: the writer/reader compression-mode consistency the claim asserts for
every in-program reader fails for that reader. -/
theorem c5_proof_file_mode_mismatch :
    save_proof_mode = .compressed ∧
    zk_cli_verify_proof_mode = save_proof_mode ∧
    verify_from_files_proof_mode ≠ save_proof_mode := by
  refine ⟨rfl, rfl, ?_⟩
  simp [verify_from_files_proof_mode, save_proof_mode]

/-- Function `return_bool` from `verifier-contract/src/main.rs` lines 150–154: a
32-byte word whose last byte is 1 for `true` and 0 for `false`. -/
def return_bool (b : Bool) : List Nat :=
  List.replicate 31 0 ++ [if b then 1 else 0]

/-- The 164-byte local buffer filled by `api::call_data_copy` in `call()`
(`verifier-contract/src/main.rs` line 105–106): the buffer is a
compile-time-sized `[0u8; 164]` array, so at most 164 bytes of the host
call-data region are copied and a shorter input leaves the zero
initialization in place. -/
def call_data_buffer (calldata_input : List Nat) : List Nat :=
  (calldata_input ++ List.replicate 164 0).take 164

/-- Function `call()` from `verifier-contract/src/main.rs` lines 101–145.  The
embedded verifying-key bytes (an `include!`-generated constant) and the
arkworks deserializers and Groth16 verifier are external collaborators and
enter as abstract parameters; `verify_proof(...).unwrap_or(false)` is
modelled by `Option.getD false`.  The result is the byte word written back
via `return_bool`. -/
def call {VK PRF : Type} (deserialize_vk : List Nat → Option VK)
    (deserialize_proof : List Nat → Option PRF)
    (deserialize_fr : List Nat → Option Nat)
    (verify_proof : VK → PRF → Nat → Option Bool)
    (vk_bytes : List Nat) (calldata_input : List Nat) : List Nat :=
  let calldata := call_data_buffer calldata_input
  let proof_bytes := (calldata.drop 4).take 128
  let input_bytes := (calldata.drop 132).take 32
  match deserialize_vk vk_bytes with
  | none => return_bool false
  | some vk =>
    match deserialize_proof proof_bytes with
    | none => return_bool false
    | some proof =>
      match deserialize_fr input_bytes with
      | none => return_bool false
      | some pub_input =>
        return_bool ((verify_proof vk proof pub_input).getD false)

theorem return_bool_length (b : Bool) : (return_bool b).length = 32 := by
  simp [return_bool]

theorem return_bool_getLast (b : Bool) :
    (return_bool b).getLast? = some (if b then 1 else 0) := by
  cases b <;> simp [return_bool]

theorem call_data_buffer_of_length_164 (calldata : List Nat)
    (h : calldata.length = 164) : call_data_buffer calldata = calldata := by
  rw [call_data_buffer, List.take_append_of_le_length (by omega),
    List.take_of_length_le (by omega)]

/-- C6.  For every 164-byte calldata input, `call()` terminates with a
single 32-byte output word whose last byte is 1 exactly when the embedded
verifying key, the proof slice and the public-input slice all deserialize
successfully and the pairing check accepts, and 0 otherwise; every
deserialization or verification failure resolves to the boolean-false
word through the same `return_bool` path, never an abnormal trap. -/
theorem c6_call_returns_boolean_word {VK PRF : Type}
    (deserialize_vk : List Nat → Option VK)
    (deserialize_proof : List Nat → Option PRF)
    (deserialize_fr : List Nat → Option Nat)
    (verify_proof : VK → PRF → Nat → Option Bool)
    (vk_bytes calldata : List Nat) (h : calldata.length = 164) :
    ∃ b : Bool,
      call deserialize_vk deserialize_proof deserialize_fr verify_proof
        vk_bytes calldata = return_bool b ∧
      (call deserialize_vk deserialize_proof deserialize_fr verify_proof
        vk_bytes calldata).length = 32 ∧
      (call deserialize_vk deserialize_proof deserialize_fr verify_proof
        vk_bytes calldata).getLast? = some (if b then 1 else 0) ∧
      (b = true ↔ ∃ vk proof pub_input,
        deserialize_vk vk_bytes = some vk ∧
        deserialize_proof ((calldata.drop 4).take 128) = some proof ∧
        deserialize_fr ((calldata.drop 132).take 32) = some pub_input ∧
        verify_proof vk proof pub_input = some true) := by
  have hbuf := call_data_buffer_of_length_164 calldata h
  cases hvk : deserialize_vk vk_bytes with
  | none =>
    refine ⟨false, ?_, ?_, ?_, ?_⟩ <;>
      simp [call, hbuf, hvk, return_bool_length, return_bool_getLast]
  | some vk =>
    cases hpf : deserialize_proof ((calldata.drop 4).take 128) with
    | none =>
      refine ⟨false, ?_, ?_, ?_, ?_⟩ <;>
        simp [call, hbuf, hvk, hpf, return_bool_length, return_bool_getLast]
    | some proof =>
      cases hfr : deserialize_fr ((calldata.drop 132).take 32) with
      | none =>
        refine ⟨false, ?_, ?_, ?_, ?_⟩ <;>
          simp [call, hbuf, hvk, hpf, hfr, return_bool_length,
            return_bool_getLast]
      | some pub_input =>
        refine ⟨(verify_proof vk proof pub_input).getD false, ?_, ?_, ?_, ?_⟩
        · simp [call, hbuf, hvk, hpf, hfr]
        · simp [call, hbuf, hvk, hpf, hfr, return_bool_length]
        · simp [call, hbuf, hvk, hpf, hfr, return_bool_getLast]
        · cases hv : verify_proof vk proof pub_input with
          | none => simp [hvk, hpf, hfr, hv]
          | some res => cases res <;> simp [hvk, hpf, hfr, hv]

/-- Closed instance for `c6_call_returns_boolean_word`: trivial external
collaborators and the all-zero 164-byte calldata. -/
theorem c6_call_returns_boolean_word_witness :
    (List.replicate 164 (0 : Nat)).length = 164 ∧
    ∃ b : Bool,
      call (fun _ => some ()) (fun _ => some ()) (fun _ => some 0)
        (fun _ _ _ => some true) [] (List.replicate 164 0) = return_bool b ∧
      (call (fun _ => some ()) (fun _ => some ()) (fun _ => some 0)
        (fun _ _ _ => some true) [] (List.replicate 164 0)).length = 32 ∧
      (call (fun _ => some ()) (fun _ => some ()) (fun _ => some 0)
        (fun _ _ _ => some true) [] (List.replicate 164 0)).getLast? =
        some (if b then 1 else 0) ∧
      (b = true ↔ ∃ (vk : Unit) (proof : Unit) (pub_input : Nat),
        some () = some vk ∧ some () = some proof ∧ some 0 = some pub_input ∧
        some true = some true) :=
  ⟨by simp,
   c6_call_returns_boolean_word (fun _ => some ()) (fun _ => some ())
     (fun _ => some 0) (fun _ _ _ => some true) [] (List.replicate 164 0)
     (by simp)⟩

theorem call_data_buffer_length (calldata : List Nat) :
    (call_data_buffer calldata).length = 164 := by
  simp [call_data_buffer]

theorem call_depends_only_on_tail {VK PRF : Type}
    (deserialize_vk : List Nat → Option VK)
    (deserialize_proof : List Nat → Option PRF)
    (deserialize_fr : List Nat → Option Nat)
    (verify_proof : VK → PRF → Nat → Option Bool)
    (vk_bytes : List Nat) (cd cd' : List Nat)
    (h4 : (call_data_buffer cd).drop 4 = (call_data_buffer cd').drop 4) :
    call deserialize_vk deserialize_proof deserialize_fr verify_proof
      vk_bytes cd =
    call deserialize_vk deserialize_proof deserialize_fr verify_proof
      vk_bytes cd' := by
  have h132 : (call_data_buffer cd).drop 132 =
      (call_data_buffer cd').drop 132 := by
    have := congrArg (List.drop 128) h4
    simpa [List.drop_drop] using this
  simp only [call, h4, h132]

/-- C7.  The entry point `call()` consumes the compact fixed-tuple variant: it reads a
164-byte buffer (a compile-time constant size) from the host call-data
region, slices bytes 4..132 as the 128-byte proof and bytes 132..164 as
the 32-byte public input at fixed offsets, and performs no ABI
offset/length parsing: the result is invariant under replacing the 4-byte
selector and under any call-data bytes beyond the 164-byte buffer. -/
theorem c7_fixed_slices_and_selector_ignored {VK PRF : Type}
    (deserialize_vk : List Nat → Option VK)
    (deserialize_proof : List Nat → Option PRF)
    (deserialize_fr : List Nat → Option Nat)
    (verify_proof : VK → PRF → Nat → Option Bool)
    (vk_bytes calldata sel extra : List Nat) (hsel : sel.length = 4) :
    (call_data_buffer calldata).length = 164 ∧
    (((call_data_buffer calldata).drop 4).take 128).length = 128 ∧
    (((call_data_buffer calldata).drop 132).take 32).length = 32 ∧
    call deserialize_vk deserialize_proof deserialize_fr verify_proof
      vk_bytes (sel ++ (call_data_buffer calldata).drop 4) =
      call deserialize_vk deserialize_proof deserialize_fr verify_proof
        vk_bytes calldata ∧
    call deserialize_vk deserialize_proof deserialize_fr verify_proof
      vk_bytes (call_data_buffer calldata ++ extra) =
      call deserialize_vk deserialize_proof deserialize_fr verify_proof
        vk_bytes calldata := by
  have hB := call_data_buffer_length calldata
  refine ⟨hB, ?_, ?_, ?_, ?_⟩
  · simp [hB]
  · simp [hB]
  · refine call_depends_only_on_tail _ _ _ _ _ _ _ ?_
    have hlen' : (sel ++ (call_data_buffer calldata).drop 4).length = 164 := by
      simp [hsel, hB]
    rw [call_data_buffer_of_length_164 _ hlen', ← hsel, List.drop_left]
  · refine call_depends_only_on_tail _ _ _ _ _ _ _ ?_
    have : call_data_buffer (call_data_buffer calldata ++ extra) =
        call_data_buffer calldata := by
      rw [call_data_buffer, List.append_assoc,
        List.take_append_of_le_length (by omega), List.take_of_length_le (by omega)]
    rw [this]

/-- Closed instance for `c7_fixed_slices_and_selector_ignored`: trivial
external collaborators, the all-zero 164-byte calldata, a replacement
selector and a trailing extra byte. -/
theorem c7_fixed_slices_and_selector_ignored_witness :
    ([9, 9, 9, 9] : List Nat).length = 4 ∧
    (call_data_buffer (List.replicate 164 0)).length = 164 ∧
    call (fun _ => some ()) (fun _ => some ()) (fun _ => some 0)
      (fun _ _ _ => some true) []
      (([9, 9, 9, 9] : List Nat) ++
        (call_data_buffer (List.replicate 164 0)).drop 4) =
      call (fun _ => some ()) (fun _ => some ()) (fun _ => some 0)
        (fun _ _ _ => some true) [] (List.replicate 164 0) :=
  ⟨by decide,
   (c7_fixed_slices_and_selector_ignored (fun _ => some ()) (fun _ => some ())
     (fun _ => some 0) (fun _ _ _ => some true) [] (List.replicate 164 0)
     [9, 9, 9, 9] [7] (by decide)).1,
   (c7_fixed_slices_and_selector_ignored (fun _ => some ()) (fun _ => some ())
     (fun _ => some 0) (fun _ _ _ => some true) [] (List.replicate 164 0)
     [9, 9, 9, 9] [7] (by decide)).2.2.2.1⟩

/-- The BN254 base-field prime, as it appears in the generated contract
(`prover/src/utils.rs` line 505). -/
def q : Nat :=
  21888242871839275222246405745257275088696311157297823662689037894645226208583

/-- Modelled from the spec: the canonical fixed-width encoding of one
field coordinate (§3: big-endian byte value, fixed width 32).  The
concrete byte layout lives in the external arkworks
`CanonicalSerialize`, which is not part of this repository. -/
def serializeFq (v : Nat) : List Nat := toBytesBE 32 v

/-- Modelled from the spec: uncompressed G1 point, coordinates x then y. -/
def serializeG1 (p : G1Affine) : List Nat := serializeFq p.x ++ serializeFq p.y

/-- Modelled from the spec: uncompressed G2 point in native coordinate
order (`c0` before `c1` for x, then for y; §6: no chain transform applied
to on-disk storage). -/
def serializeG2 (p : G2Affine) : List Nat :=
  serializeFq p.x.c0 ++ serializeFq p.x.c1 ++
  serializeFq p.y.c0 ++ serializeFq p.y.c1

/-- Modelled from the spec: the verifying-key binary file (§6),
`(alpha:G1, beta:G2, gamma:G2, delta:G2, gamma_abc: sequence<G1>)` with
the sequence preceded by an 8-byte length word. -/
def serialize_vk_uncompressed (vk : VerifyingKey) : List Nat :=
  serializeG1 vk.alpha_g1 ++ serializeG2 vk.beta_g2 ++
  serializeG2 vk.gamma_g2 ++ serializeG2 vk.delta_g2 ++
  toBytesBE 8 vk.gamma_abc_g1.length ++
  vk.gamma_abc_g1.flatMap serializeG1

/-- Modelled from the spec: read one canonical field coordinate
(§4.1: fails on wrong length or a non-canonical value `≥ q`). -/
def readFq (bs : List Nat) : Option (Nat × List Nat) :=
  if bs.length < 32 then none
  else if fromBytesBE (bs.take 32) < q then
    some (fromBytesBE (bs.take 32), bs.drop 32)
  else none

/-- Modelled from the spec: read an uncompressed G1 point. -/
def readG1 (bs : List Nat) : Option (G1Affine × List Nat) :=
  (readFq bs).bind fun (x, r1) =>
    (readFq r1).map fun (y, r2) => (⟨x, y⟩, r2)

/-- Modelled from the spec: read an uncompressed G2 point, native order. -/
def readG2 (bs : List Nat) : Option (G2Affine × List Nat) :=
  (readFq bs).bind fun (xc0, r1) =>
    (readFq r1).bind fun (xc1, r2) =>
      (readFq r2).bind fun (yc0, r3) =>
        (readFq r3).map fun (yc1, r4) => (⟨⟨xc0, xc1⟩, ⟨yc0, yc1⟩⟩, r4)

/-- Modelled from the spec: read a sequence of `k` G1 points. -/
def readG1Seq : Nat → List Nat → Option (List G1Affine × List Nat)
  | 0, bs => some ([], bs)
  | k + 1, bs =>
    (readG1 bs).bind fun (p, r1) =>
      (readG1Seq k r1).map fun (ps, r2) => (p :: ps, r2)

/-- Modelled from the spec: read the 8-byte sequence-length word. -/
def readSeqLen (bs : List Nat) : Option (Nat × List Nat) :=
  if bs.length < 8 then none
  else some (fromBytesBE (bs.take 8), bs.drop 8)

/-- Modelled from the spec: deserialize the verifying-key binary file,
failing on malformed or trailing input (§4.3). -/
def deserialize_vk_uncompressed (bs : List Nat) : Option VerifyingKey :=
  (readG1 bs).bind fun (alpha, r1) =>
    (readG2 r1).bind fun (beta, r2) =>
      (readG2 r2).bind fun (gamma, r3) =>
        (readG2 r3).bind fun (delta, r4) =>
          (readSeqLen r4).bind fun (k, r5) =>
            (readG1Seq k r5).bind fun (abc, r6) =>
              if r6 = [] then some ⟨alpha, beta, gamma, delta, abc⟩ else none

/-- The mode `save_verifying_key` (`prover/src/utils.rs` line 76) uses to
write `../keys/verifying_key.bin`: `serialize_uncompressed`. -/
def save_verifying_key_mode : SerializationMode := .uncompressed

/-- The mode `load_verifying_key_from_file` (`prover/src/lib.rs` line 75)
uses to read a verifying-key file: `deserialize_uncompressed`. -/
def load_verifying_key_mode : SerializationMode := .uncompressed

/-- The byte buffer `save_verifying_key` writes to the key file. -/
def save_verifying_key_bytes (vk : VerifyingKey) : List Nat :=
  serialize_vk_uncompressed vk

/-- The verifying key `load_verifying_key_from_file` recovers from a file
holding the given bytes. -/
def load_verifying_key_from_file (bs : List Nat) : Option VerifyingKey :=
  deserialize_vk_uncompressed bs

/-- All coordinates of a G1 point are canonical field values. -/
def G1Canonical (p : G1Affine) : Prop := p.x < q ∧ p.y < q

/-- All coordinates of a G2 point are canonical field values. -/
def G2Canonical (p : G2Affine) : Prop :=
  p.x.c0 < q ∧ p.x.c1 < q ∧ p.y.c0 < q ∧ p.y.c1 < q

/-- All coordinates of a verifying key are canonical field values. -/
def VKCanonical (vk : VerifyingKey) : Prop :=
  G1Canonical vk.alpha_g1 ∧ G2Canonical vk.beta_g2 ∧
  G2Canonical vk.gamma_g2 ∧ G2Canonical vk.delta_g2 ∧
  ∀ p ∈ vk.gamma_abc_g1, G1Canonical p

theorem q_lt_2_pow_256 : q < 2 ^ 256 := by norm_num [q]

theorem take_append_of_length {α : Type} {n : Nat} (l1 l2 : List α)
    (h : l1.length = n) : (l1 ++ l2).take n = l1 := by
  subst h; exact List.take_left l1 l2

theorem drop_append_of_length {α : Type} {n : Nat} (l1 l2 : List α)
    (h : l1.length = n) : (l1 ++ l2).drop n = l2 := by
  subst h; exact List.drop_left l1 l2

theorem readFq_serializeFq (v : Nat) (hv : v < q) (rest : List Nat) :
    readFq (serializeFq v ++ rest) = some (v, rest) := by
  have hlen : (serializeFq v).length = 32 := by
    simp [serializeFq, toBytesBE_length]
  have htake : (serializeFq v ++ rest).take 32 = serializeFq v :=
    take_append_of_length _ _ hlen
  have hdrop : (serializeFq v ++ rest).drop 32 = rest :=
    drop_append_of_length _ _ hlen
  have hnotlt : ¬ (serializeFq v ++ rest).length < 32 := by
    simp [hlen]
  have hval : fromBytesBE (toBytesBE 32 v) = v := by
    rw [fromBytesBE_toBytesBE]
    exact Nat.mod_eq_of_lt (lt_trans hv (by norm_num [q]))
  rw [readFq, if_neg hnotlt, htake, hdrop, serializeFq, hval, if_pos hv]

theorem readG1_serializeG1 (p : G1Affine) (hp : G1Canonical p)
    (rest : List Nat) : readG1 (serializeG1 p ++ rest) = some (p, rest) := by
  cases p with
  | mk x y =>
    obtain ⟨hx, hy⟩ := hp
    rw [readG1, serializeG1, List.append_assoc, readFq_serializeFq x hx]
    simp [readFq_serializeFq y hy]

theorem readG2_serializeG2 (p : G2Affine) (hp : G2Canonical p)
    (rest : List Nat) : readG2 (serializeG2 p ++ rest) = some (p, rest) := by
  obtain ⟨h0, h1, h2, h3⟩ := hp
  have hassoc : serializeG2 p ++ rest =
      serializeFq p.x.c0 ++ (serializeFq p.x.c1 ++
        (serializeFq p.y.c0 ++ (serializeFq p.y.c1 ++ rest))) := by
    simp [serializeG2, List.append_assoc]
  rw [readG2, hassoc, readFq_serializeFq p.x.c0 h0]
  simp [readFq_serializeFq p.x.c1 h1, readFq_serializeFq p.y.c0 h2,
    readFq_serializeFq p.y.c1 h3]

theorem readSeqLen_toBytesBE (n : Nat) (hn : n < 2 ^ 64) (rest : List Nat) :
    readSeqLen (toBytesBE 8 n ++ rest) = some (n, rest) := by
  have hlen : (toBytesBE 8 n).length = 8 := toBytesBE_length 8 n
  have htake : (toBytesBE 8 n ++ rest).take 8 = toBytesBE 8 n :=
    take_append_of_length _ _ hlen
  have hdrop : (toBytesBE 8 n ++ rest).drop 8 = rest :=
    drop_append_of_length _ _ hlen
  have hval : fromBytesBE (toBytesBE 8 n) = n := by
    rw [fromBytesBE_toBytesBE]
    exact Nat.mod_eq_of_lt (by exact_mod_cast hn)
  rw [readSeqLen, if_neg (by simp [hlen]), htake, hdrop, hval]

theorem readG1Seq_serialize (ps : List G1Affine)
    (hps : ∀ p ∈ ps, G1Canonical p) (rest : List Nat) :
    readG1Seq ps.length (ps.flatMap serializeG1 ++ rest) = some (ps, rest) := by
  induction ps with
  | nil => simp [readG1Seq]
  | cons p ps ih =>
    have hassoc : (p :: ps).flatMap serializeG1 ++ rest =
        serializeG1 p ++ (ps.flatMap serializeG1 ++ rest) := by
      simp [List.append_assoc]
    rw [List.length_cons, readG1Seq, hassoc,
      readG1_serializeG1 p (hps p (by simp))]
    simp [ih (fun r hr => hps r (by simp [hr]))]

/-- C8.  Loading the verifying-key file written by the artifact store
round-trips field-by-field, every `gamma_abc` entry included, for keys
with two `gamma_abc` entries: the writer and the reader both select the
uncompressed mode, and deserializing the serialized canonical key
returns exactly the original key. -/
theorem c8_verifying_key_roundtrip (vk : VerifyingKey)
    (hcanon : VKCanonical vk) (habc : vk.gamma_abc_g1.length = 2) :
    save_verifying_key_mode = load_verifying_key_mode ∧
    load_verifying_key_from_file (save_verifying_key_bytes vk) = some vk := by
  obtain ⟨ha, hb, hg, hd, habc_canon⟩ := hcanon
  refine ⟨rfl, ?_⟩
  have hassoc : serialize_vk_uncompressed vk =
      serializeG1 vk.alpha_g1 ++ (serializeG2 vk.beta_g2 ++
        (serializeG2 vk.gamma_g2 ++ (serializeG2 vk.delta_g2 ++
          (toBytesBE 8 vk.gamma_abc_g1.length ++
            (vk.gamma_abc_g1.flatMap serializeG1 ++ []))))) := by
    simp [serialize_vk_uncompressed, List.append_assoc]
  rw [load_verifying_key_from_file, save_verifying_key_bytes,
    deserialize_vk_uncompressed, hassoc, readG1_serializeG1 _ ⟨ha.1, ha.2⟩]
  simp only [Option.bind_eq_bind, Option.some_bind]
  rw [readG2_serializeG2 _ hb]
  simp only [Option.some_bind]
  rw [readG2_serializeG2 _ hg]
  simp only [Option.some_bind]
  rw [readG2_serializeG2 _ hd]
  simp only [Option.some_bind]
  rw [readSeqLen_toBytesBE _ (by rw [habc]; norm_num)]
  simp only [Option.some_bind]
  rw [readG1Seq_serialize _ habc_canon]
  simp

/-- Closed instance for `c8_verifying_key_roundtrip`: a small canonical
key with two `gamma_abc` entries. -/
theorem c8_verifying_key_roundtrip_witness :
    VKCanonical ⟨⟨0, 1⟩, ⟨⟨0, 1⟩, ⟨2, 3⟩⟩, ⟨⟨4, 5⟩, ⟨6, 7⟩⟩,
      ⟨⟨8, 9⟩, ⟨10, 11⟩⟩, [⟨0, 0⟩, ⟨1, 2⟩]⟩ ∧
    load_verifying_key_from_file (save_verifying_key_bytes
      ⟨⟨0, 1⟩, ⟨⟨0, 1⟩, ⟨2, 3⟩⟩, ⟨⟨4, 5⟩, ⟨6, 7⟩⟩,
        ⟨⟨8, 9⟩, ⟨10, 11⟩⟩, [⟨0, 0⟩, ⟨1, 2⟩]⟩) =
      some ⟨⟨0, 1⟩, ⟨⟨0, 1⟩, ⟨2, 3⟩⟩, ⟨⟨4, 5⟩, ⟨6, 7⟩⟩,
        ⟨⟨8, 9⟩, ⟨10, 11⟩⟩, [⟨0, 0⟩, ⟨1, 2⟩]⟩ :=
  ⟨by constructor <;> norm_num [G1Canonical, G2Canonical, VKCanonical, q],
   (c8_verifying_key_roundtrip _
     (by constructor <;> norm_num [G1Canonical, G2Canonical, VKCanonical, q])
     (by simp)).2⟩

/-- The BN254 scalar-field prime (the modulus of arkworks `Fr`, the
external library's documented field of circuit witnesses and public
inputs). -/
def r_scalar : Nat :=
  21888242871839275222246405745257275088548364400416034343698204186575808495617

/-- Modelled from the spec: the public-input binary file holds the single
scalar in its fixed-width canonical encoding (§3, §6); the concrete byte
layout lives in the external arkworks `CanonicalSerialize`. -/
def scalar_file_bytes (v : Nat) : List Nat := toBytesBE 32 v

/-- The observable artifacts of one run of the zk-cli `Prove` command:
whether the input-mismatch warning was printed, and the calldata, proof
and public-input file contents. -/
structure ProveArtifacts where
  warned : Bool
  calldata : List Nat
  proof_file : List Nat
  public_input_file : List Nat
deriving DecidableEq

/-- The zk-cli `Prove` command (`zk-cli/src/main.rs` lines 58–89).
`Fr::from` of a `u64` is reduction mod `r_scalar`; the circuit output is
`c_fr = a_fr * b_fr` computed in `Fr` regardless of the user-supplied `c`,
which is consulted only for the warning (compared by wrapping `u64`
multiplication).  The randomized Groth16 prover and the proof-file encoder
are external collaborators and enter as the abstract parameters `proof`
and `proof_enc`. -/
def prove_command (hash : List Nat → List Nat) (proof_enc : Proof → List Nat)
    (proof : Proof) (a b c : Nat) : ProveArtifacts :=
  let a_fr := a % r_scalar
  let b_fr := b % r_scalar
  let c_fr := a_fr * b_fr % r_scalar
  { warned := decide (a * b % 2 ^ 64 ≠ c % 2 ^ 64)
    calldata := save_calldata hash proof c_fr
    proof_file := proof_enc proof
    public_input_file := scalar_file_bytes c_fr }

theorem r_scalar_gt_2_pow_128 : 2 ^ 128 < r_scalar := by norm_num [r_scalar]

/-- C9.  In the zk-cli `Prove` command the public input actually proven
and written into every artifact is the product `a*b` of the two private
`u64` arguments: the calldata and the public-input file encode exactly
`a*b`, none of the artifacts depend on the user-supplied `c`, and a
mismatching `c` only sets the warning flag (no error path exists). -/
theorem c9_public_input_is_product (hash : List Nat → List Nat)
    (proof_enc : Proof → List Nat) (proof : Proof) (a b c c' : Nat)
    (ha : a < 2 ^ 64) (hb : b < 2 ^ 64) :
    (prove_command hash proof_enc proof a b c).calldata =
      save_calldata hash proof (a * b) ∧
    (prove_command hash proof_enc proof a b c).public_input_file =
      scalar_file_bytes (a * b) ∧
    (prove_command hash proof_enc proof a b c).calldata =
      (prove_command hash proof_enc proof a b c').calldata ∧
    (prove_command hash proof_enc proof a b c).proof_file =
      (prove_command hash proof_enc proof a b c').proof_file ∧
    (prove_command hash proof_enc proof a b c).public_input_file =
      (prove_command hash proof_enc proof a b c').public_input_file ∧
    ((prove_command hash proof_enc proof a b c).warned = true ↔
      a * b % 2 ^ 64 ≠ c % 2 ^ 64) := by
  have har : a < r_scalar := lt_trans ha (by norm_num [r_scalar])
  have hbr : b < r_scalar := lt_trans hb (by norm_num [r_scalar])
  have hab : a * b < r_scalar := by
    calc a * b < 2 ^ 64 * 2 ^ 64 := Nat.mul_lt_mul_of_lt_of_lt ha hb
    _ < r_scalar := by norm_num [r_scalar]
  have hc : a % r_scalar * (b % r_scalar) % r_scalar = a * b := by
    rw [Nat.mod_eq_of_lt har, Nat.mod_eq_of_lt hbr, Nat.mod_eq_of_lt hab]
  refine ⟨?_, ?_, ?_, rfl, ?_, ?_⟩
  · simp only [prove_command, hc]
  · simp only [prove_command, hc]
  · simp only [prove_command]
  · simp only [prove_command]
  · simp [prove_command]

/-- Closed instance for `c9_public_input_is_product`: arguments `a = 3`,
`b = 4` and the mismatching public value `c = 13` against `c' = 12`. -/
theorem c9_public_input_is_product_witness :
    (3 : Nat) < 2 ^ 64 ∧ (4 : Nat) < 2 ^ 64 ∧
    (prove_command (fun _ => []) (fun _ => [])
        ⟨⟨0, 0⟩, ⟨⟨0, 0⟩, ⟨0, 0⟩⟩, ⟨0, 0⟩⟩ 3 4 13).calldata =
      save_calldata (fun _ => []) ⟨⟨0, 0⟩, ⟨⟨0, 0⟩, ⟨0, 0⟩⟩, ⟨0, 0⟩⟩ 12 ∧
    ((prove_command (fun _ => []) (fun _ => [])
        ⟨⟨0, 0⟩, ⟨⟨0, 0⟩, ⟨0, 0⟩⟩, ⟨0, 0⟩⟩ 3 4 13).warned = true ↔
      (3 * 4 % 2 ^ 64 : Nat) ≠ 13 % 2 ^ 64) := by
  have h := c9_public_input_is_product (fun _ => []) (fun _ => [])
    ⟨⟨0, 0⟩, ⟨⟨0, 0⟩, ⟨0, 0⟩⟩, ⟨0, 0⟩⟩ 3 4 13 12 (by norm_num) (by norm_num)
  exact ⟨by norm_num, by norm_num, by rw [h.1], h.2.2.2.2.2⟩

/-- Modelled from the spec: the streaming scalar reader the public-input
loop of `verify_proof_bytes` invokes (arkworks
`Fr::deserialize_uncompressed(&mut buf)`, external to this repository):
it consumes a fixed-width 32-byte scalar from the front of the buffer and
fails on a short buffer or a non-canonical value `≥ r_scalar` (§4.1). -/
def read_fr_uncompressed (bs : List Nat) : Option (Nat × List Nat) :=
  if bs.length < 32 then none
  else if fromBytesBE (bs.take 32) < r_scalar then
    some (fromBytesBE (bs.take 32), bs.drop 32)
  else none

/-- The public-input parsing loop of `verify_proof_bytes`
(`zk-seance-hash/src/verifier.rs` lines 28–35): repeatedly deserialize a
scalar from the remaining bytes until the buffer is empty, failing if any
read fails. -/
def parse_public_inputs (bs : List Nat) : Option (List Nat) :=
  if _hnil : bs = [] then some []
  else if _hlen : bs.length < 32 then none
  else if fromBytesBE (bs.take 32) < r_scalar then
    (parse_public_inputs (bs.drop 32)).map fun l =>
      fromBytesBE (bs.take 32) :: l
  else none
termination_by bs.length
decreasing_by
  simp only [List.length_drop]
  omega

/-- Each loop iteration of `parse_public_inputs` is exactly one call to
the streaming scalar reader on the remaining buffer. -/
theorem parse_public_inputs_step (bs : List Nat) (hbs : bs ≠ []) :
    parse_public_inputs bs =
      (read_fr_uncompressed bs).bind fun (v, rest) =>
        (parse_public_inputs rest).map fun l => v :: l := by
  rw [parse_public_inputs, dif_neg hbs, read_fr_uncompressed]
  by_cases h32 : bs.length < 32
  · simp [h32]
  · by_cases hv : fromBytesBE (bs.take 32) < r_scalar
    · simp [h32, hv]
    · simp [h32, hv]

/-- Function `verify_proof_bytes` from `zk-seance-hash/src/verifier.rs` lines
12–38.  The arkworks deserializers for the prepared verifying key and the
proof, and the Groth16 pairing check, are external collaborators and
enter as abstract parameters; `verify_proof(...).unwrap_or(false)` is
modelled by `Option.getD false`. -/
def verify_proof_bytes {PVK PRF : Type}
    (deserialize_pvk : List Nat → Option PVK)
    (deserialize_proof : List Nat → Option PRF)
    (groth16_verify : PVK → PRF → List Nat → Option Bool)
    (pvk_bytes proof_bytes inputs_bytes : List Nat) : Bool :=
  match deserialize_pvk pvk_bytes with
  | none => false
  | some pvk =>
    match deserialize_proof proof_bytes with
    | none => false
    | some proof =>
      match parse_public_inputs inputs_bytes with
      | none => false
      | some inputs => (groth16_verify pvk proof inputs).getD false

theorem parse_public_inputs_nil : parse_public_inputs [] = some [] := by
  rw [parse_public_inputs]
  simp

theorem parse_public_inputs_consumes_all :
    ∀ n bs l, bs.length ≤ n → parse_public_inputs bs = some l →
      32 * l.length = bs.length := by
  intro n
  induction n with
  | zero =>
    intro bs l hlen hparse
    have hbs : bs = [] := by
      cases bs with
      | nil => rfl
      | cons x xs => simp at hlen
    subst hbs
    rw [parse_public_inputs_nil] at hparse
    cases hparse
    simp
  | succ n ih =>
    intro bs l hlen hparse
    by_cases hbs : bs = []
    · subst hbs
      rw [parse_public_inputs_nil] at hparse
      cases hparse
      simp
    · rw [parse_public_inputs, dif_neg hbs] at hparse
      by_cases h32 : bs.length < 32
      · rw [dif_pos h32] at hparse; cases hparse
      · rw [dif_neg h32] at hparse
        by_cases hv : fromBytesBE (bs.take 32) < r_scalar
        · rw [if_pos hv] at hparse
          cases hrec : parse_public_inputs (bs.drop 32) with
          | none => rw [hrec] at hparse; cases hparse
          | some tail =>
            rw [hrec] at hparse
            simp only [Option.map_some'] at hparse
            obtain rfl : fromBytesBE (bs.take 32) :: tail = l :=
              Option.some.inj hparse
            have htail : 32 * tail.length = (bs.drop 32).length := by
              refine ih (bs.drop 32) tail ?_ hrec
              simp only [List.length_drop]
              omega
            simp only [List.length_cons, List.length_drop] at htail ⊢
            omega
        · rw [if_neg hv] at hparse; cases hparse

theorem read_fr_uncompressed_toBytesBE (v : Nat) (hv : v < r_scalar)
    (rest : List Nat) :
    read_fr_uncompressed (toBytesBE 32 v ++ rest) = some (v, rest) := by
  have hlen : (toBytesBE 32 v).length = 32 := toBytesBE_length 32 v
  have htake : (toBytesBE 32 v ++ rest).take 32 = toBytesBE 32 v :=
    take_append_of_length _ _ hlen
  have hdrop : (toBytesBE 32 v ++ rest).drop 32 = rest :=
    drop_append_of_length _ _ hlen
  have hval : fromBytesBE (toBytesBE 32 v) = v := by
    rw [fromBytesBE_toBytesBE]
    exact Nat.mod_eq_of_lt (lt_trans hv (by norm_num [r_scalar]))
  rw [read_fr_uncompressed, if_neg (by simp [hlen]), htake, hdrop, hval,
    if_pos hv]

theorem parse_public_inputs_cons (v : Nat) (hv : v < r_scalar)
    (rest : List Nat) :
    parse_public_inputs (toBytesBE 32 v ++ rest) =
      (parse_public_inputs rest).map fun l => v :: l := by
  have hne : toBytesBE 32 v ++ rest ≠ [] := by
    intro h
    have := congrArg List.length h
    simp [toBytesBE_length] at this
  rw [parse_public_inputs_step _ hne, read_fr_uncompressed_toBytesBE v hv rest,
    Option.some_bind]

/-- C10.  `verify_proof_bytes` is total over arbitrary byte slices and
returns a boolean: it returns `true` exactly when the prepared verifying
key, the proof and the whole public-input slice all deserialize and the
pairing check returns `Ok(true)`, any malformed input resolving to
`false`; the public inputs are parsed as a sequence of scalars consuming
the entire slice (32 bytes each, an empty slice yielding the empty
list). -/
theorem c10_verify_proof_bytes_total {PVK PRF : Type}
    (deserialize_pvk : List Nat → Option PVK)
    (deserialize_proof : List Nat → Option PRF)
    (groth16_verify : PVK → PRF → List Nat → Option Bool)
    (pvk_bytes proof_bytes inputs_bytes : List Nat) :
    (verify_proof_bytes deserialize_pvk deserialize_proof groth16_verify
        pvk_bytes proof_bytes inputs_bytes = true ↔
      ∃ pvk proof inputs,
        deserialize_pvk pvk_bytes = some pvk ∧
        deserialize_proof proof_bytes = some proof ∧
        parse_public_inputs inputs_bytes = some inputs ∧
        groth16_verify pvk proof inputs = some true) ∧
    parse_public_inputs [] = some [] ∧
    (∀ inputs, parse_public_inputs inputs_bytes = some inputs →
      32 * inputs.length = inputs_bytes.length) := by
  refine ⟨?_, parse_public_inputs_nil, fun inputs h =>
    parse_public_inputs_consumes_all inputs_bytes.length inputs_bytes inputs
      le_rfl h⟩
  cases hp : deserialize_pvk pvk_bytes with
  | none => simp [verify_proof_bytes, hp]
  | some pvk =>
    cases hpf : deserialize_proof proof_bytes with
    | none => simp [verify_proof_bytes, hp, hpf]
    | some proof =>
      cases hin : parse_public_inputs inputs_bytes with
      | none => simp [verify_proof_bytes, hp, hpf, hin]
      | some inputs =>
        cases hv : groth16_verify pvk proof inputs with
        | none => simp [verify_proof_bytes, hp, hpf, hin, hv]
        | some res =>
          cases res <;> simp [verify_proof_bytes, hp, hpf, hin, hv]

/-- Closed instance for `c10_verify_proof_bytes_total`: trivial external
collaborators, empty key/proof slices accepted by them, and a 64-byte
input slice parsing to the two scalars `[0, 0]`. -/
theorem c10_verify_proof_bytes_total_witness :
    parse_public_inputs (List.replicate 64 (0 : Nat)) = some [0, 0] ∧
    32 * ([0, 0] : List Nat).length = (List.replicate 64 (0 : Nat)).length ∧
    verify_proof_bytes (fun _ => some ()) (fun _ => some ())
      (fun _ _ _ => some true) [] [] (List.replicate 64 0) = true := by
  have h0 : (0 : Nat) < r_scalar := by norm_num [r_scalar]
  have hparse : parse_public_inputs (List.replicate 64 (0 : Nat)) =
      some [0, 0] := by
    have e : List.replicate 64 (0 : Nat) =
        toBytesBE 32 0 ++ (toBytesBE 32 0 ++ []) := by
      rw [toBytesBE_zero, List.append_nil, ← List.replicate_add]
    rw [e, parse_public_inputs_cons 0 h0, parse_public_inputs_cons 0 h0,
      parse_public_inputs_nil]
    rfl
  refine ⟨hparse, ?_, ?_⟩
  · exact (c10_verify_proof_bytes_total (fun _ => some (() : Unit))
      (fun _ => some (() : Unit)) (fun _ _ _ => some true) [] []
      (List.replicate 64 0)).2.2 [0, 0] hparse
  · exact (c10_verify_proof_bytes_total (fun _ => some (() : Unit))
      (fun _ => some (() : Unit)) (fun _ _ _ => some true) [] []
      (List.replicate 64 0)).1.mpr ⟨(), (), [0, 0], rfl, rfl, hparse, rfl⟩

end Poof
